import Mathlib

/-!
Verification of the telemetry reliability pipeline of the repro-react-sdk
(source file src/unnamed/part_000, duplicated with minor UI differences in
src/src/index.tsx).

The capture events are opaque to the pipeline, so they are modelled by a type
parameter.  The envelope builder and the JSON byte estimate only ever enter
the splitter through the byte count of a candidate slice, so the composition
jsonBytes (mkEnvelope slice) is embedded as one function
measure : List a -> Nat (a serialization failure, mapped to Infinity by
jsonBytes, behaves like any value above the ceiling).  Network responses are
modelled by an oracle indexed by the number of requests issued so far.
-/

namespace Repro

/-- Byte ceiling per POST: MAX_BYTES = 900 * 1024 (part_000 line 30). -/
def MAX_BYTES : Nat := 900 * 1024

/-- Potential of the splitter work stack, used to show that the bisection
loop exhausts its stack: each slice of length n contributes 3 ^ n. -/
def stackPotential {α : Type} (stack : List (List α)) : Nat :=
  (stack.map fun l => 3 ^ l.length).sum

/-- The while loop of splitEventsBySize (part_000 lines 42-52).  The work
stack is a LIFO list whose head is the top (the end of the JS array).  A
popped slice is accepted into the output when its envelope fits in MAX_BYTES
or it has at most one event; otherwise the first half is pushed and then the
second half, so the second half sits on top and is processed first. -/
def splitGo {α : Type} (measure : List α → Nat) (out : List (List α)) :
    List (List α) → List (List α)
  | [] => out
  | cur :: stack =>
    if h : measure cur ≤ MAX_BYTES ∨ cur.length ≤ 1 then
      splitGo measure (out ++ [cur]) stack
    else
      splitGo measure out
        (cur.drop (cur.length / 2) :: cur.take (cur.length / 2) :: stack)
  termination_by stack => stackPotential stack
  decreasing_by
  · simp only [stackPotential, List.map_cons, List.sum_cons]
    have hp : 0 < 3 ^ cur.length := Nat.pos_pow_of_pos _ (by norm_num)
    omega
  · push_neg at h
    have h1 : 1 ≤ cur.length / 2 := by omega
    have h2 : cur.length / 2 ≤ cur.length - 1 := by omega
    have h3 : cur.length - cur.length / 2 ≤ cur.length - 1 := by omega
    have e1 : 3 ^ (cur.length - cur.length / 2) ≤ 3 ^ (cur.length - 1) :=
      Nat.pow_le_pow_right (by norm_num) h3
    have e2 : 3 ^ (cur.length / 2) ≤ 3 ^ (cur.length - 1) :=
      Nat.pow_le_pow_right (by norm_num) h2
    have hp : 0 < 3 ^ (cur.length - 1) := Nat.pos_pow_of_pos _ (by norm_num)
    have e4 : 3 * 3 ^ (cur.length - 1) = 3 ^ cur.length := by
      have h4 : cur.length - 1 + 1 = cur.length := by omega
      calc 3 * 3 ^ (cur.length - 1) = 3 ^ (cur.length - 1) * 3 := by ring
        _ = 3 ^ (cur.length - 1 + 1) := (Nat.pow_succ ..).symm
        _ = 3 ^ cur.length := by rw [h4]
    simp only [stackPotential, List.map_cons, List.sum_cons, List.length_drop,
      List.length_take]
    have hmin : min (cur.length / 2) cur.length = cur.length / 2 :=
      Nat.min_eq_left (Nat.div_le_self _ _)
    rw [hmin]
    omega

/-- splitEventsBySize (part_000 lines 39-54): partition a list of events
into byte-bounded pieces by iterative bisection.  The second argument stands
for the byte size of the envelope built from a slice. -/
def splitEventsBySize {α : Type} (events : List α) (measure : List α → Nat) :
    List (List α) :=
  splitGo measure [] [events]

/-- Fuel-indexed transcription of the same while loop, one unit of fuel per
iteration; none means the fuel ran out before the stack was exhausted.  Used
to state termination of the loop. -/
def splitGoF {α : Type} (measure : List α → Nat) :
    Nat → List (List α) → List (List α) → Option (List (List α))
  | _, out, [] => some out
  | 0, _, _ :: _ => none
  | fuel + 1, out, cur :: stack =>
    if measure cur ≤ MAX_BYTES ∨ cur.length ≤ 1 then
      splitGoF measure fuel (out ++ [cur]) stack
    else
      splitGoF measure fuel out
        (cur.drop (cur.length / 2) :: cur.take (cur.length / 2) :: stack)

/-- Classification of a delivery response (part_000 lines 577, 592-595):
ok is a 2xx, tooLarge is HTTP 413, fail is any other non-success or a
network error. -/
inductive SendResult : Type
  | ok : SendResult
  | tooLarge : SendResult
  | fail : SendResult
deriving DecidableEq

/-- Backoff update on a failed delivery (part_000 line 660):
Math.min(4000, (backoff || 250) * 2); the JS || yields 250 exactly when the
previous backoff is 0. -/
def bumpBackoff (b : Nat) : Nat :=
  min 4000 ((if b = 0 then 250 else b) * 2)

/-- Result of one run of the piece loop inside flushRrwebBuffer:
the running success counter, the next-sequence counter, the backoff scalar,
and a ghost log of the delivered pieces with their sequence numbers. -/
structure FlushResult (α : Type) : Type where
  sentCount : Nat
  nextSeq : Nat
  backoff : Nat
  delivered : List (Nat × List α)

/-- The piece loop of flushRrwebBuffer (part_000 lines 629-662).  Arguments
after the fuel: the remaining pieces (the JS array from the current index
on), the current index i (pieceSeq = seqBase + i), the number of network
calls issued so far (feeding the response oracle), the success counter, the
next-sequence ref, the backoff ref and the delivered log.  One unit of fuel
is one loop iteration, i.e. one network call; none means the attempt was
still running after that many calls (the source can loop indefinitely when
a piece keeps answering 413 but re-splits to itself). -/
def flushLoopF {α : Type} (measure : List α → Nat) (oracle : Nat → SendResult)
    (seqBase : Nat) :
    Nat → List (List α) → Nat → Nat → Nat → Nat → Nat →
    List (Nat × List α) → Option (FlushResult α)
  | _, [], _, _, sent, ns, b, log => some ⟨sent, ns, b, log⟩
  | 0, _ :: _, _, _, _, _, _, _ => none
  | fuel + 1, piece :: rest, i, c, sent, ns, b, log =>
    match oracle c with
    | SendResult.ok =>
      flushLoopF measure oracle seqBase fuel rest (i + 1) (c + 1)
        (sent + piece.length) (seqBase + i + 1) 0 (log ++ [(seqBase + i, piece)])
    | SendResult.tooLarge =>
      if 1 < piece.length then
        flushLoopF measure oracle seqBase fuel
          (splitEventsBySize piece measure ++ rest) i (c + 1) sent ns b log
      else some ⟨sent, ns, bumpBackoff b, log⟩
    | SendResult.fail => some ⟨sent, ns, bumpBackoff b, log⟩

/-- The mutable session state touched by flushRrwebBuffer: rrBufferRef,
nextSeqRef and backoffRef. -/
structure FlushSt (α : Type) : Type where
  buffer : List α
  nextSeq : Nat
  backoff : Nat

/-- One call of flushRrwebBuffer (part_000 lines 601-671) on the session
state, given the response oracle and a fuel bound on the number of network
calls.  The early returns for a missing session or token and the in-flight
guard are session plumbing outside this state; the empty-buffer early return
is kept.  The snapshot is split into pieces, the loop runs, and afterwards
the first sentCount entries of the buffer are removed.  The ghost delivered
log is returned alongside the state. -/
def flushRrwebBuffer {α : Type} (measure : List α → Nat)
    (oracle : Nat → SendResult) (fuel : Nat) (st : FlushSt α) :
    Option (FlushSt α × List (Nat × List α)) :=
  if st.buffer.isEmpty then some (st, [])
  else
    match flushLoopF measure oracle st.nextSeq fuel
        (splitEventsBySize st.buffer measure) 0 0 0 st.nextSeq st.backoff [] with
    | none => none
    | some r => some (⟨st.buffer.drop r.sentCount, r.nextSeq, r.backoff⟩, r.delivered)

/-- The correlation-marker state: hasReqMarkedRef (the dedup Set of action
ids, part_000 line 224) and a ghost list of the action ids for which a
correlation-marker POST has been issued (the POST at lines 749-771). -/
structure CorrState (ι : Type) : Type where
  hasReqMarked : List ι
  markerPosts : List ι

/-- Fresh correlation state: empty dedup set, no markers sent. -/
def corrInit (ι : Type) : CorrState ι := ⟨[], []⟩

/-- One observed outbound-request completion.  fetchResp is the fetch
wrapper (part_000 lines 864-873): it only records the action id in the
dedup set.  axiosResp is the auto-attached axios response interceptor
(part_000 lines 729-777): it records the id and issues the one-time
correlation marker.  sidP and tokenP state whether sessionIdRef and
sdkTokenRef are non-null; aid is currentAidRef. -/
inductive NetObs (ι : Type) : Type
  | fetchResp (isInternal isSdkInternal sidP : Bool) (aid : Option ι)
  | axiosResp (isInternal isSdkInternal sidP : Bool) (aid : Option ι) (tokenP : Bool)

/-- Effect of one observed request completion on the correlation state. -/
def observe {ι : Type} [DecidableEq ι] : NetObs ι → CorrState ι → CorrState ι
  | NetObs.fetchResp iI iS sidP aid, st =>
    match aid with
    | some a =>
      if iI = false ∧ iS = false ∧ sidP = true ∧ a ∉ st.hasReqMarked then
        { st with hasReqMarked := a :: st.hasReqMarked }
      else st
    | none => st
  | NetObs.axiosResp iI iS sidP aid tokenP, st =>
    match aid with
    | some a =>
      if iI = false ∧ iS = false ∧ sidP = true ∧ tokenP = true ∧
          a ∉ st.hasReqMarked then
        { hasReqMarked := a :: st.hasReqMarked,
          markerPosts := st.markerPosts ++ [a] }
      else st
    | none => st

/-- Folding a whole sequence of observed request completions. -/
def observeAll {ι : Type} [DecidableEq ι] (obs : List (NetObs ι))
    (st : CorrState ι) : CorrState ι :=
  obs.foldl (fun s o => observe o s) st

/-- The state touched by the click handler (part_000 lines 886-943):
currentAidRef, lastActionLabelRef, lastClickRef and the pending expiry
deadline of the aid-expiry timer. -/
structure ClickSt (ι κ : Type) : Type where
  currentAid : Option ι
  lastActionLabel : Option κ
  lastClick : Option (Nat × κ)
  aidExpiry : Option Nat

/-- The duplicate-click test (part_000 line 896): a stored last click whose
label equals the new one and whose timestamp is less than 250 ms old.  JS
computes a signed difference, so a clock step backwards also counts as a
duplicate; truncated Nat subtraction yields 0 < 250 there, matching. -/
def isDupClick {κ : Type} [DecidableEq κ] (t : Nat) (label : κ) :
    Option (Nat × κ) → Bool
  | some p => decide (t - p.1 < 250) && decide (p.2 = label)
  | none => false

/-- The click handler (part_000 lines 886-943).  sessionActive abstracts
sessionIdRef and sdkTokenRef being non-null, internalTarget the
data-repro-internal ancestor test, t is nowServer() and label the value of
labelFromClickTarget; fresh is the identifier newAID() would mint.  A
duplicate click returns with no state change; otherwise the last click is
stored, a new action id becomes current, its label is remembered and the
expiry timer is reset to fire 5000 ms later. -/
def clickHandler {ι κ : Type} [DecidableEq κ] (sessionActive internalTarget : Bool)
    (t : Nat) (label : κ) (fresh : ι) (st : ClickSt ι κ) : ClickSt ι κ :=
  if sessionActive = false then st
  else if internalTarget = true then st
  else if isDupClick t label st.lastClick then st
  else
    { currentAid := some fresh,
      lastActionLabel := some label,
      lastClick := some (t, label),
      aidExpiry := some (t + 5000) }

/-- A byte measure under which every slice of two or more events exceeds
the ceiling while smaller slices fit; it drives the splitter into full
bisection. -/
def oversizeMeasure {α : Type} : List α → Nat :=
  fun l => if 2 ≤ l.length then MAX_BYTES + 1 else 0

/-- A response oracle whose first answer is ok and every later answer is a
transient failure. -/
def okThenFail : Nat → SendResult :=
  fun c => if c = 0 then SendResult.ok else SendResult.fail

/-- A byte measure under which every slice, the empty one included, exceeds
the ceiling (for instance an envelope builder whose serialization always
fails, which jsonBytes maps to Infinity). -/
def hugeMeasure {α : Type} : List α → Nat :=
  fun _ => MAX_BYTES + 1

/-- Unfolding splitGo on an empty stack. -/
theorem splitGo_nil {α : Type} (measure : List α → Nat) (out : List (List α)) :
    splitGo measure out [] = out := by
  simp [splitGo]

/-- Unfolding splitGo when the popped slice is accepted. -/
theorem splitGo_accept {α : Type} (measure : List α → Nat)
    (out : List (List α)) (cur : List α) (stack : List (List α))
    (h : measure cur ≤ MAX_BYTES ∨ cur.length ≤ 1) :
    splitGo measure out (cur :: stack) = splitGo measure (out ++ [cur]) stack := by
  rw [splitGo, dif_pos h]

/-- Unfolding splitGo when the popped slice is bisected: the first half is
pushed below the second half, so the second half is popped first. -/
theorem splitGo_bisect {α : Type} (measure : List α → Nat)
    (out : List (List α)) (cur : List α) (stack : List (List α))
    (h : ¬(measure cur ≤ MAX_BYTES ∨ cur.length ≤ 1)) :
    splitGo measure out (cur :: stack) =
      splitGo measure out
        (cur.drop (cur.length / 2) :: cur.take (cur.length / 2) :: stack) := by
  rw [splitGo, dif_neg h]

/-- Induction principle following the recursion of splitGo, obtained by
strong induction on the stack potential. -/
theorem splitGo_ind {α : Type} (measure : List α → Nat)
    (P : List (List α) → List (List α) → Prop)
    (h1 : ∀ out, P out [])
    (h2 : ∀ out cur stack, (measure cur ≤ MAX_BYTES ∨ cur.length ≤ 1) →
      P (out ++ [cur]) stack → P out (cur :: stack))
    (h3 : ∀ out cur stack, ¬(measure cur ≤ MAX_BYTES ∨ cur.length ≤ 1) →
      P out (cur.drop (cur.length / 2) :: cur.take (cur.length / 2) :: stack) →
      P out (cur :: stack)) :
    ∀ out stack, P out stack := by
  intro out stack
  generalize hn : stackPotential stack = n
  induction n using Nat.strong_induction_on generalizing out stack with
  | _ n ih =>
    cases stack with
    | nil => exact h1 out
    | cons cur rest =>
      subst hn
      by_cases hc : measure cur ≤ MAX_BYTES ∨ cur.length ≤ 1
      · refine h2 out cur rest hc (ih (stackPotential rest) ?_ _ _ rfl)
        simp only [stackPotential, List.map_cons, List.sum_cons]
        have hp : 0 < 3 ^ cur.length := Nat.pos_pow_of_pos _ (by norm_num)
        omega
      · refine h3 out cur rest hc
          (ih (stackPotential
            (cur.drop (cur.length / 2) :: cur.take (cur.length / 2) :: rest))
            ?_ _ _ rfl)
        push_neg at hc
        have h1' : 1 ≤ cur.length / 2 := by omega
        have h2' : cur.length / 2 ≤ cur.length - 1 := by omega
        have h3' : cur.length - cur.length / 2 ≤ cur.length - 1 := by omega
        have e1 : 3 ^ (cur.length - cur.length / 2) ≤ 3 ^ (cur.length - 1) :=
          Nat.pow_le_pow_right (by norm_num) h3'
        have e2 : 3 ^ (cur.length / 2) ≤ 3 ^ (cur.length - 1) :=
          Nat.pow_le_pow_right (by norm_num) h2'
        have hp : 0 < 3 ^ (cur.length - 1) := Nat.pos_pow_of_pos _ (by norm_num)
        have e4 : 3 * 3 ^ (cur.length - 1) = 3 ^ cur.length := by
          have h4 : cur.length - 1 + 1 = cur.length := by omega
          calc 3 * 3 ^ (cur.length - 1) = 3 ^ (cur.length - 1) * 3 := by ring
            _ = 3 ^ (cur.length - 1 + 1) := (Nat.pow_succ ..).symm
            _ = 3 ^ cur.length := by rw [h4]
        simp only [stackPotential, List.map_cons, List.sum_cons, List.length_drop,
          List.length_take]
        have hmin : min (cur.length / 2) cur.length = cur.length / 2 :=
          Nat.min_eq_left (Nat.div_le_self _ _)
        rw [hmin]
        omega

/-- The potential of a stack with a slice on top. -/
theorem stackPotential_cons {α : Type} (cur : List α) (stack : List (List α)) :
    stackPotential (cur :: stack) = 3 ^ cur.length + stackPotential stack := by
  simp [stackPotential]

/-- Bisecting the top slice strictly decreases the stack potential. -/
theorem stackPotential_bisect_lt {α : Type} (cur : List α)
    (stack : List (List α)) (hlen : 2 ≤ cur.length) :
    stackPotential
        (cur.drop (cur.length / 2) :: cur.take (cur.length / 2) :: stack) <
      stackPotential (cur :: stack) := by
  have h1' : 1 ≤ cur.length / 2 := by omega
  have h2' : cur.length / 2 ≤ cur.length - 1 := by omega
  have h3' : cur.length - cur.length / 2 ≤ cur.length - 1 := by omega
  have e1 : 3 ^ (cur.length - cur.length / 2) ≤ 3 ^ (cur.length - 1) :=
    Nat.pow_le_pow_right (by norm_num) h3'
  have e2 : 3 ^ (cur.length / 2) ≤ 3 ^ (cur.length - 1) :=
    Nat.pow_le_pow_right (by norm_num) h2'
  have hp : 0 < 3 ^ (cur.length - 1) := Nat.pos_pow_of_pos _ (by norm_num)
  have e4 : 3 * 3 ^ (cur.length - 1) = 3 ^ cur.length := by
    have h4 : cur.length - 1 + 1 = cur.length := by omega
    calc 3 * 3 ^ (cur.length - 1) = 3 ^ (cur.length - 1) * 3 := by ring
      _ = 3 ^ (cur.length - 1 + 1) := (Nat.pow_succ ..).symm
      _ = 3 ^ cur.length := by rw [h4]
  simp only [stackPotential, List.map_cons, List.sum_cons, List.length_drop,
    List.length_take]
  have hmin : min (cur.length / 2) cur.length = cur.length / 2 :=
    Nat.min_eq_left (Nat.div_le_self _ _)
  rw [hmin]
  omega

/-- A list whose envelope fits in the ceiling is returned as the single
piece. -/
theorem split_small {α : Type} (events : List α) (measure : List α → Nat)
    (h : measure events ≤ MAX_BYTES) :
    splitEventsBySize events measure = [events] := by
  unfold splitEventsBySize
  rw [splitGo_accept _ _ _ _ (Or.inl h), splitGo_nil]
  rfl

/-- A list of at most one event is returned as the single piece. -/
theorem split_le_one {α : Type} (events : List α) (measure : List α → Nat)
    (h : events.length ≤ 1) :
    splitEventsBySize events measure = [events] := by
  unfold splitEventsBySize
  rw [splitGo_accept _ _ _ _ (Or.inr h), splitGo_nil]
  rfl

/-- A two-event list whose envelope exceeds the ceiling is bisected, and the
LIFO work stack emits the second half before the first. -/
theorem split_pair {α : Type} (measure : List α → Nat) (x y : α)
    (h : ¬ measure [x, y] ≤ MAX_BYTES) :
    splitEventsBySize [x, y] measure = [[y], [x]] := by
  have hc : ¬(measure [x, y] ≤ MAX_BYTES ∨ ([x, y] : List α).length ≤ 1) := by
    simp [h]
  unfold splitEventsBySize
  rw [splitGo_bisect _ _ _ _ hc]
  norm_num
  rw [splitGo_accept _ _ _ _ (Or.inr (by norm_num)),
    splitGo_accept _ _ _ _ (Or.inr (by norm_num)), splitGo_nil]
  rfl

/-- Every slice accepted by the splitter loop was either already in the
output accumulator or satisfies the acceptance test. -/
theorem splitGo_pieces_ok {α : Type} (measure : List α → Nat) :
    ∀ out stack, (∀ q ∈ out, measure q ≤ MAX_BYTES ∨ q.length ≤ 1) →
      ∀ piece ∈ splitGo measure out stack,
        measure piece ≤ MAX_BYTES ∨ piece.length ≤ 1 := by
  refine splitGo_ind measure
    (fun out stack => (∀ q ∈ out, measure q ≤ MAX_BYTES ∨ q.length ≤ 1) →
      ∀ piece ∈ splitGo measure out stack,
        measure piece ≤ MAX_BYTES ∨ piece.length ≤ 1) ?_ ?_ ?_
  · intro out hout piece hp
    rw [splitGo_nil] at hp
    exact hout piece hp
  · intro out cur stack hacc ih hout piece hp
    rw [splitGo_accept _ _ _ _ hacc] at hp
    refine ih ?_ piece hp
    intro q hq
    rcases List.mem_append.mp hq with h | h
    · exact hout q h
    · rw [List.mem_singleton.mp h]; exact hacc
  · intro out cur stack hacc ih hout piece hp
    rw [splitGo_bisect _ _ _ _ hacc] at hp
    exact ih hout piece hp

/-- Claim C1, amended: for every input event list and every envelope
builder, every piece returned by splitEventsBySize either has an envelope
of at most 900 * 1024 bytes or contains at most one event.  (The original
"exactly one event" fails on the empty input, whose single empty piece can
exceed the ceiling under an adversarial envelope builder; the acceptance
test in the source is cur.length <= 1.) -/
theorem claim_C1 {α : Type} (events : List α) (measure : List α → Nat)
    (piece : List α) (hmem : piece ∈ splitEventsBySize events measure) :
    measure piece ≤ MAX_BYTES ∨ piece.length ≤ 1 := by
  refine splitGo_pieces_ok measure [] [events] ?_ piece hmem
  intro q hq
  simp at hq

/-- Witness for claim C1 at a concrete input: the one-event list under the
zero measure. -/
theorem claim_C1_witness :
    (fun _ : List Nat => 0) [5] ≤ MAX_BYTES ∨ ([5] : List Nat).length ≤ 1 :=
  claim_C1 [5] (fun _ => 0) [5]
    (by rw [split_small _ _ (by norm_num [MAX_BYTES])]; simp)

/-- Counterexample to claim C1 as stated: on the empty event list with an
envelope builder whose serialization always exceeds the ceiling, the
splitter returns one empty piece, which neither fits in 900 * 1024 bytes
nor contains exactly one event. -/
theorem claim_C1_cex :
    splitEventsBySize ([] : List Unit) hugeMeasure = [[]] ∧
      ¬(hugeMeasure ([] : List Unit) ≤ MAX_BYTES ∨
        ([] : List Unit).length = 1) := by
  constructor
  · exact split_le_one [] hugeMeasure (by simp)
  · norm_num [hugeMeasure, MAX_BYTES]

/-- Claim C2 is violated by the code: on the two-event list [0, 1] with an
envelope builder under which any two-event slice exceeds the ceiling, the
splitter returns the pieces [[1], [0]] — the LIFO work stack pops the
second half before the first — so concatenating the pieces in output order
yields [1, 0], not the original [0, 1]. -/
theorem claim_C2_eval :
    splitEventsBySize ([0, 1] : List Nat) oversizeMeasure = [[1], [0]] ∧
      ([[1], [0]] : List (List Nat)).flatten ≠ [0, 1] := by
  constructor
  · exact split_pair oversizeMeasure 0 1 (by norm_num [oversizeMeasure, MAX_BYTES])
  · simp

/-- The fueled splitter loop reaches the result of the total one whenever
the fuel is at least the stack potential. -/
theorem splitGoF_complete {α : Type} (measure : List α → Nat) :
    ∀ out stack, ∀ fuel, stackPotential stack ≤ fuel →
      splitGoF measure fuel out stack = some (splitGo measure out stack) := by
  refine splitGo_ind measure
    (fun out stack => ∀ fuel, stackPotential stack ≤ fuel →
      splitGoF measure fuel out stack = some (splitGo measure out stack)) ?_ ?_ ?_
  · intro out fuel _
    rw [splitGo_nil]
    cases fuel <;> rfl
  · intro out cur stack hacc ih fuel hf
    have hp : 0 < 3 ^ cur.length := Nat.pos_pow_of_pos _ (by norm_num)
    rw [stackPotential_cons] at hf
    cases fuel with
    | zero => omega
    | succ f =>
      rw [splitGo_accept _ _ _ _ hacc]
      show (if measure cur ≤ MAX_BYTES ∨ cur.length ≤ 1 then
          splitGoF measure f (out ++ [cur]) stack
        else splitGoF measure f out
          (cur.drop (cur.length / 2) :: cur.take (cur.length / 2) :: stack)) = _
      rw [if_pos hacc]
      exact ih f (by omega)
  · intro out cur stack hacc ih fuel hf
    have hlen : 2 ≤ cur.length := by
      push_neg at hacc
      omega
    have hlt := stackPotential_bisect_lt cur stack hlen
    cases fuel with
    | zero =>
      exfalso
      have hp : 0 < 3 ^ cur.length := Nat.pos_pow_of_pos _ (by norm_num)
      rw [stackPotential_cons] at hf
      omega
    | succ f =>
      rw [splitGo_bisect _ _ _ _ hacc]
      show (if measure cur ≤ MAX_BYTES ∨ cur.length ≤ 1 then
          splitGoF measure f (out ++ [cur]) stack
        else splitGoF measure f out
          (cur.drop (cur.length / 2) :: cur.take (cur.length / 2) :: stack)) = _
      rw [if_neg hacc]
      exact ih f (by omega)

/-- Claim C9: the splitter terminates on every input.  The fueled
transcription of its while loop, given 3 ^ n fuel for an n-event input,
exhausts the work stack and returns the total function's partition instead
of running out. -/
theorem claim_C9 {α : Type} (events : List α) (measure : List α → Nat) :
    splitGoF measure (stackPotential [events]) [] [events] =
      some (splitEventsBySize events measure) :=
  splitGoF_complete measure [] [events] (stackPotential [events]) le_rfl

/-- The events of the splitter loop output are a permutation of the
accumulator's events followed by the stack's events. -/
theorem splitGo_join_perm {α : Type} (measure : List α → Nat) :
    ∀ out stack,
      (splitGo measure out stack).flatten.Perm (out.flatten ++ stack.flatten) := by
  refine splitGo_ind measure
    (fun out stack => (splitGo measure out stack).flatten.Perm
      (out.flatten ++ stack.flatten)) ?_ ?_ ?_
  · intro out
    rw [splitGo_nil]
    simp
  · intro out cur stack hacc ih
    rw [splitGo_accept _ _ _ _ hacc]
    refine ih.trans ?_
    simp [List.append_assoc]
  · intro out cur stack hacc ih
    rw [splitGo_bisect _ _ _ _ hacc]
    refine ih.trans ?_
    refine List.Perm.append_left out.flatten ?_
    simp only [List.flatten_cons]
    have hcomm :
        (cur.drop (cur.length / 2) ++ cur.take (cur.length / 2)).Perm
          (cur.take (cur.length / 2) ++ cur.drop (cur.length / 2)) :=
      List.perm_append_comm
    have hsplit := List.take_append_drop (cur.length / 2) cur
    have h2 := hcomm.append_right stack.flatten
    rw [hsplit] at h2
    rw [← List.append_assoc]
    exact h2

/-- Claim C10: the pieces returned by the splitter form a partition of the
input multiset — concatenating all pieces yields a permutation of the input
list, so no event is lost or duplicated. -/
theorem claim_C10 {α : Type} (events : List α) (measure : List α → Nat) :
    ((splitEventsBySize events measure).flatten).Perm events := by
  have h := splitGo_join_perm measure [] [events]
  simpa using h

/-- One-step unfolding of the piece loop on a successful delivery: the
success counter grows by the piece event count, the next-sequence ref
becomes pieceSeq + 1 and the backoff is reset to 0. -/
theorem flushLoopF_ok {α : Type} (measure : List α → Nat)
    (oracle : Nat → SendResult) (seqBase fuel : Nat) (piece : List α)
    (rest : List (List α)) (i c sent ns b : Nat) (log : List (Nat × List α))
    (h : oracle c = SendResult.ok) :
    flushLoopF measure oracle seqBase (fuel + 1) (piece :: rest) i c sent ns b log =
      flushLoopF measure oracle seqBase fuel rest (i + 1) (c + 1)
        (sent + piece.length) (seqBase + i + 1) 0
        (log ++ [(seqBase + i, piece)]) := by
  simp only [flushLoopF, h]

/-- One-step unfolding of the piece loop when the response is 413 and the
piece has more than one event: the piece is re-split and the sub-pieces are
spliced in at the current position, which is then reprocessed. -/
theorem flushLoopF_tooLarge_resplit {α : Type} (measure : List α → Nat)
    (oracle : Nat → SendResult) (seqBase fuel : Nat) (piece : List α)
    (rest : List (List α)) (i c sent ns b : Nat) (log : List (Nat × List α))
    (h : oracle c = SendResult.tooLarge) (hlen : 1 < piece.length) :
    flushLoopF measure oracle seqBase (fuel + 1) (piece :: rest) i c sent ns b log =
      flushLoopF measure oracle seqBase fuel
        (splitEventsBySize piece measure ++ rest) i (c + 1) sent ns b log := by
  simp only [flushLoopF, h, if_pos hlen]

/-- One-step unfolding of the piece loop when the response is 413 on a
piece of at most one event: the backoff is bumped and the attempt stops. -/
theorem flushLoopF_tooLarge_atomic {α : Type} (measure : List α → Nat)
    (oracle : Nat → SendResult) (seqBase fuel : Nat) (piece : List α)
    (rest : List (List α)) (i c sent ns b : Nat) (log : List (Nat × List α))
    (h : oracle c = SendResult.tooLarge) (hlen : ¬ 1 < piece.length) :
    flushLoopF measure oracle seqBase (fuel + 1) (piece :: rest) i c sent ns b log =
      some ⟨sent, ns, bumpBackoff b, log⟩ := by
  simp only [flushLoopF, h, if_neg hlen]

/-- One-step unfolding of the piece loop on any other failure: the backoff
is bumped and the attempt stops. -/
theorem flushLoopF_fail {α : Type} (measure : List α → Nat)
    (oracle : Nat → SendResult) (seqBase fuel : Nat) (piece : List α)
    (rest : List (List α)) (i c sent ns b : Nat) (log : List (Nat × List α))
    (h : oracle c = SendResult.fail) :
    flushLoopF measure oracle seqBase (fuel + 1) (piece :: rest) i c sent ns b log =
      some ⟨sent, ns, bumpBackoff b, log⟩ := by
  simp only [flushLoopF, h]

/-- Loop invariant of the piece loop: the index i counts the successes so
far, so the delivered log always carries the consecutive sequence numbers
seqBase, seqBase + 1, ... , the next-sequence ref is seqBase + i, and the
success counter is the total length of the delivered pieces.  Any result
the loop returns therefore satisfies the same three equations. -/
theorem flushLoopF_inv {α : Type} (measure : List α → Nat)
    (oracle : Nat → SendResult) (seqBase : Nat) :
    ∀ (fuel : Nat) (pieces : List (List α)) (i c sent ns b : Nat)
      (log : List (Nat × List α)) (r : FlushResult α),
      flushLoopF measure oracle seqBase fuel pieces i c sent ns b log = some r →
      log.map Prod.fst = List.range' seqBase i →
      ns = seqBase + i →
      sent = (log.map fun p => p.2.length).sum →
      r.delivered.map Prod.fst = List.range' seqBase r.delivered.length ∧
        r.nextSeq = seqBase + r.delivered.length ∧
        r.sentCount = (r.delivered.map fun p => p.2.length).sum := by
  intro fuel
  induction fuel with
  | zero =>
    intro pieces i c sent ns b log r hr hlog hns hsent
    cases pieces with
    | nil =>
      cases hr
      have hlen : log.length = i := by
        have := congrArg List.length hlog
        simpa using this
      refine ⟨by simpa [hlen] using hlog, by simpa [hlen] using hns,
        by simpa using hsent⟩
    | cons piece rest => cases hr
  | succ fuel ih =>
    intro pieces i c sent ns b log r hr hlog hns hsent
    cases pieces with
    | nil =>
      cases hr
      have hlen : log.length = i := by
        have := congrArg List.length hlog
        simpa using this
      refine ⟨by simpa [hlen] using hlog, by simpa [hlen] using hns,
        by simpa using hsent⟩
    | cons piece rest =>
      cases horacle : oracle c with
      | ok =>
        rw [flushLoopF_ok _ _ _ _ _ _ _ _ _ _ _ _ horacle] at hr
        refine ih _ _ _ _ _ _ _ _ hr ?_ ?_ ?_
        · rw [List.map_append, hlog]
          simpa using (List.range'_1_concat seqBase i).symm
        · omega
        · simp [hsent]
      | tooLarge =>
        by_cases hlen : 1 < piece.length
        · rw [flushLoopF_tooLarge_resplit _ _ _ _ _ _ _ _ _ _ _ _ horacle hlen] at hr
          exact ih _ _ _ _ _ _ _ _ hr hlog hns hsent
        · rw [flushLoopF_tooLarge_atomic _ _ _ _ _ _ _ _ _ _ _ _ horacle hlen] at hr
          cases hr
          have hlen' : log.length = i := by
            have := congrArg List.length hlog
            simpa using this
          refine ⟨by simpa [hlen'] using hlog, by simpa [hlen'] using hns,
            by simpa using hsent⟩
      | fail =>
        rw [flushLoopF_fail _ _ _ _ _ _ _ _ _ _ _ _ horacle] at hr
        cases hr
        have hlen' : log.length = i := by
          have := congrArg List.length hlog
          simpa using this
        refine ⟨by simpa [hlen'] using hlog, by simpa [hlen'] using hns,
          by simpa using hsent⟩

/-- Elimination form of a completed flush attempt: the delivered log
carries the consecutive sequence numbers starting at the session counter,
the counter advances by the number of delivered pieces, and the buffer
loses exactly its first sentCount entries, sentCount being the total
number of delivered events. -/
theorem flush_spec {α : Type} (measure : List α → Nat)
    (oracle : Nat → SendResult) (fuel : Nat) (st st' : FlushSt α)
    (log : List (Nat × List α))
    (h : flushRrwebBuffer measure oracle fuel st = some (st', log)) :
    log.map Prod.fst = List.range' st.nextSeq log.length ∧
      st'.nextSeq = st.nextSeq + log.length ∧
      st'.buffer = st.buffer.drop ((log.map fun p => p.2.length).sum) := by
  by_cases hb : st.buffer.isEmpty
  · rw [flushRrwebBuffer, if_pos hb] at h
    cases h
    have : st.buffer = [] := List.isEmpty_iff.mp hb
    simp [this]
  · rw [flushRrwebBuffer, if_neg hb] at h
    cases hr : flushLoopF measure oracle st.nextSeq fuel
        (splitEventsBySize st.buffer measure) 0 0 0 st.nextSeq st.backoff [] with
    | none => rw [hr] at h; cases h
    | some r =>
      rw [hr] at h
      cases h
      have hinv := flushLoopF_inv measure oracle st.nextSeq fuel
        (splitEventsBySize st.buffer measure) 0 0 0 st.nextSeq st.backoff [] r hr
        (by simp) (by simp) (by simp)
      exact ⟨hinv.1, hinv.2.1, by rw [hinv.2.2]⟩

/-- Claim C3: within one flush attempt the delivered pieces receive the
consecutive sequence numbers base, base + 1, ... (piece i gets base + i,
the base being the session's current next-sequence value), the
next-sequence counter ends one past the last delivered piece (and is
untouched when nothing is delivered, since base + 0 = base), and the
delivered sequence numbers are strictly increasing, hence never reused and
never lower for a later-delivered piece. -/
theorem claim_C3 {α : Type} (measure : List α → Nat)
    (oracle : Nat → SendResult) (fuel : Nat) (st st' : FlushSt α)
    (log : List (Nat × List α))
    (h : flushRrwebBuffer measure oracle fuel st = some (st', log)) :
    log.map Prod.fst = List.range' st.nextSeq log.length ∧
      st'.nextSeq = st.nextSeq + log.length ∧
      List.Pairwise (· < ·) (log.map Prod.fst) := by
  obtain ⟨h1, h2, _⟩ := flush_spec measure oracle fuel st st' log h
  refine ⟨h1, h2, ?_⟩
  rw [h1]
  exact List.pairwise_lt_range' ..

/-- Witness for claim C3: a one-event flush from sequence 7 delivers the
single piece with sequence 7 and advances the counter to 8. -/
theorem claim_C3_witness :
    ([(7, [0])] : List (Nat × List Nat)).map Prod.fst =
        List.range' 7 ([(7, [0])] : List (Nat × List Nat)).length ∧
      (FlushSt.mk ([] : List Nat) 8 0).nextSeq =
        (FlushSt.mk ([0] : List Nat) 7 0).nextSeq +
          ([(7, [0])] : List (Nat × List Nat)).length ∧
      List.Pairwise (· < ·) (([(7, [0])] : List (Nat × List Nat)).map Prod.fst) :=
  claim_C3 (fun _ => 0) (fun _ => SendResult.ok) 1 ⟨[0], 7, 0⟩ ⟨[], 8, 0⟩
    [(7, [0])] (by
      have hs : splitEventsBySize ([0] : List Nat) (fun _ => 0) = [[0]] :=
        split_le_one _ _ (by norm_num)
      unfold flushRrwebBuffer
      rw [hs]
      rfl)

/-- Claim C4 is violated by the code: with buffer [10, 20] at sequence 5
and an envelope builder under which two-event slices exceed the ceiling,
the splitter emits the reordered pieces [[20], [10]]; the server accepts
the first request (event 20, sequence 5) and fails the second (event 10).
The flush then removes the first sentCount = 1 entries of the buffer, i.e.
event 10 — whose delivery just failed — while the delivered event 20 stays
buffered.  An event with no confirmed delivery is removed, contradicting
the claim. -/
theorem claim_C4_eval :
    flushRrwebBuffer oversizeMeasure okThenFail 2
        (⟨[10, 20], 5, 0⟩ : FlushSt Nat) =
      some (⟨[20], 6, 500⟩, [(5, [20])]) ∧ (10 : Nat) ∉ ([20] : List Nat) := by
  constructor
  · have hs : splitEventsBySize ([10, 20] : List Nat) oversizeMeasure =
        [[20], [10]] :=
      split_pair oversizeMeasure 10 20 (by norm_num [oversizeMeasure, MAX_BYTES])
    unfold flushRrwebBuffer
    rw [hs]
    rfl
  · simp

/-- Claim C5: the backoff scalar is reset to 0 by the loop immediately
after a successful piece delivery; after a failed delivery (a transient
failure, or a 413 on a piece that cannot be split further) the loop sets
it to bumpBackoff of its previous value, which (from any reachable
previous value: 0 or at least 250) is at least 250, at most 4000, and at
least the double of the previous value capped at 4000. -/
theorem claim_C5 {α : Type} (measure : List α → Nat)
    (oracle : Nat → SendResult) (seqBase fuel : Nat) (piece : List α)
    (rest : List (List α)) (i c sent ns b : Nat) (log : List (Nat × List α)) :
    (oracle c = SendResult.ok →
      flushLoopF measure oracle seqBase (fuel + 1) (piece :: rest) i c sent ns b log =
        flushLoopF measure oracle seqBase fuel rest (i + 1) (c + 1)
          (sent + piece.length) (seqBase + i + 1) 0
          (log ++ [(seqBase + i, piece)])) ∧
    (oracle c = SendResult.fail →
      flushLoopF measure oracle seqBase (fuel + 1) (piece :: rest) i c sent ns b log =
        some ⟨sent, ns, bumpBackoff b, log⟩) ∧
    (oracle c = SendResult.tooLarge → piece.length ≤ 1 →
      flushLoopF measure oracle seqBase (fuel + 1) (piece :: rest) i c sent ns b log =
        some ⟨sent, ns, bumpBackoff b, log⟩) ∧
    (b = 0 ∨ 250 ≤ b →
      250 ≤ bumpBackoff b ∧ bumpBackoff b ≤ 4000 ∧
        min (2 * b) 4000 ≤ bumpBackoff b) := by
  refine ⟨fun h => flushLoopF_ok _ _ _ _ _ _ _ _ _ _ _ _ h,
    fun h => flushLoopF_fail _ _ _ _ _ _ _ _ _ _ _ _ h,
    fun h hlen =>
      flushLoopF_tooLarge_atomic _ _ _ _ _ _ _ _ _ _ _ _ h (by omega), ?_⟩
  intro hb
  rcases hb with hb | hb
  · subst hb
    norm_num [bumpBackoff]
  · have hb0 : b ≠ 0 := by omega
    simp only [bumpBackoff, if_neg hb0]
    omega

/-- Witness for claim C5: a transient failure with previous backoff 500
yields backoff bumpBackoff 500 = 1000, within the floor and ceiling. -/
theorem claim_C5_witness :
    (flushLoopF (fun _ : List Nat => 0) (fun _ => SendResult.fail) 3 1
        [[0]] 0 0 0 3 500 [] = some ⟨0, 3, bumpBackoff 500, []⟩) ∧
      250 ≤ bumpBackoff 500 ∧ bumpBackoff 500 ≤ 4000 ∧
        min (2 * 500) 4000 ≤ bumpBackoff 500 :=
  ⟨(claim_C5 (fun _ => 0) (fun _ => SendResult.fail) 3 0 [0] [] 0 0 0 3 500
      []).2.1 rfl,
    (claim_C5 (fun _ : List Nat => 0) (fun _ => SendResult.fail) 3 0 [0] [] 0 0 0 3
      500 []).2.2.2 (Or.inr (by norm_num))⟩

/-- Claim C6, amended: a 413 on a piece of more than one event re-splits
the piece and splices the sub-pieces in at the current position, which is
reprocessed under the same sequence numbering; a 413 on a piece of at most
one event, or any other failure, bumps the backoff and ends the attempt;
the buffer then keeps everything but its first sentCount entries (sentCount
being the number of delivered events) — which, because the splitter can
reorder pieces, are not necessarily exactly the undelivered events. -/
theorem claim_C6 {α : Type} (measure : List α → Nat)
    (oracle : Nat → SendResult) (seqBase fuel : Nat) (piece : List α)
    (rest : List (List α)) (i c sent ns b : Nat) (log : List (Nat × List α))
    (fuel' : Nat) (st st' : FlushSt α) (logT : List (Nat × List α)) :
    (oracle c = SendResult.tooLarge → 1 < piece.length →
      flushLoopF measure oracle seqBase (fuel + 1) (piece :: rest) i c sent ns b log =
        flushLoopF measure oracle seqBase fuel
          (splitEventsBySize piece measure ++ rest) i (c + 1) sent ns b log) ∧
    (oracle c = SendResult.tooLarge → piece.length ≤ 1 →
      flushLoopF measure oracle seqBase (fuel + 1) (piece :: rest) i c sent ns b log =
        some ⟨sent, ns, bumpBackoff b, log⟩) ∧
    (oracle c = SendResult.fail →
      flushLoopF measure oracle seqBase (fuel + 1) (piece :: rest) i c sent ns b log =
        some ⟨sent, ns, bumpBackoff b, log⟩) ∧
    (flushRrwebBuffer measure oracle fuel' st = some (st', logT) →
      st'.buffer = st.buffer.drop ((logT.map fun p => p.2.length).sum)) := by
  refine ⟨fun h hlen => flushLoopF_tooLarge_resplit _ _ _ _ _ _ _ _ _ _ _ _ h hlen,
    fun h hlen =>
      flushLoopF_tooLarge_atomic _ _ _ _ _ _ _ _ _ _ _ _ h (by omega),
    fun h => flushLoopF_fail _ _ _ _ _ _ _ _ _ _ _ _ h,
    fun h => (flush_spec measure oracle fuel' st st' logT h).2.2⟩

/-- Counterexample to claim C6 as stated: with buffer [0, 1] at sequence 1
and a builder under which two-event slices are oversize, the pieces come
out reordered as [[1], [0]]; the first delivery (event 1) succeeds and the
second (event 0) fails, ending the attempt.  The buffer afterwards is [1]:
the undelivered event 0 does NOT remain in the buffer for the next attempt,
refuting the final clause of the claim. -/
theorem claim_C6_cex :
    flushRrwebBuffer oversizeMeasure okThenFail 2
        (⟨[0, 1], 1, 0⟩ : FlushSt Nat) =
      some (⟨[1], 2, 500⟩, [(1, [1])]) ∧ (0 : Nat) ∉ ([1] : List Nat) := by
  constructor
  · have hs : splitEventsBySize ([0, 1] : List Nat) oversizeMeasure =
        [[1], [0]] :=
      split_pair oversizeMeasure 0 1 (by norm_num [oversizeMeasure, MAX_BYTES])
    unfold flushRrwebBuffer
    rw [hs]
    rfl
  · simp

/-- Witness for claim C6: a 413 on the two-event piece [3, 4] re-splits it
in place, and a transient failure ends the attempt with a bumped backoff. -/
theorem claim_C6_witness :
    (flushLoopF oversizeMeasure (fun _ => SendResult.tooLarge) 1 3
        [[3, 4]] 0 0 0 1 0 [] =
      flushLoopF oversizeMeasure (fun _ => SendResult.tooLarge) 1 2
        (splitEventsBySize ([3, 4] : List Nat) oversizeMeasure ++ []) 0 1 0 1 0 []) ∧
    (flushLoopF oversizeMeasure (fun _ => SendResult.fail) 1 1
        [[3]] 0 0 0 1 0 [] = some ⟨0, 1, bumpBackoff 0, []⟩) :=
  ⟨(claim_C6 oversizeMeasure (fun _ => SendResult.tooLarge) 1 2 [3, 4] [] 0 0 0 1 0
      [] 0 ⟨[], 1, 0⟩ ⟨[], 1, 0⟩ []).1 rfl (by norm_num),
    (claim_C6 oversizeMeasure (fun _ => SendResult.fail) 1 0 [3] [] 0 0 0 1 0
      [] 0 ⟨[], 1, 0⟩ ⟨[], 1, 0⟩ []).2.2.1 rfl⟩

/-- Invariant of the correlation state: the list of issued markers has no
duplicates and every marked-for-marker action id is in the dedup set.  Both
observation kinds preserve it, because a marker is only issued together
with inserting the id into the dedup set, and only when the id is not yet
in the set. -/
theorem observe_inv {ι : Type} [DecidableEq ι] (o : NetObs ι) (st : CorrState ι)
    (h1 : st.markerPosts.Nodup)
    (h2 : ∀ a ∈ st.markerPosts, a ∈ st.hasReqMarked) :
    (observe o st).markerPosts.Nodup ∧
      ∀ a ∈ (observe o st).markerPosts, a ∈ (observe o st).hasReqMarked := by
  cases o with
  | fetchResp iI iS sidP aid =>
    cases aid with
    | none => exact ⟨h1, h2⟩
    | some x =>
      simp only [observe]
      split
      · exact ⟨h1, fun a ha => List.mem_cons_of_mem _ (h2 a ha)⟩
      · exact ⟨h1, h2⟩
  | axiosResp iI iS sidP aid tokP =>
    cases aid with
    | none => exact ⟨h1, h2⟩
    | some x =>
      simp only [observe]
      split
      · next hc =>
        constructor
        · rw [List.nodup_append]
          refine ⟨h1, List.nodup_singleton x, ?_⟩
          intro a ha hax
          rw [List.mem_singleton.mp hax] at ha
          exact hc.2.2.2.2 (h2 x ha)
        · intro a ha
          rcases List.mem_append.mp ha with h | h
          · exact List.mem_cons_of_mem _ (h2 a h)
          · rw [List.mem_singleton.mp h]
            exact List.mem_cons_self ..
      · exact ⟨h1, h2⟩

/-- The correlation-state invariant is preserved by any sequence of
observed request completions. -/
theorem observeAll_inv {ι : Type} [DecidableEq ι] :
    ∀ (obs : List (NetObs ι)) (st : CorrState ι),
      st.markerPosts.Nodup →
      (∀ a ∈ st.markerPosts, a ∈ st.hasReqMarked) →
      (observeAll obs st).markerPosts.Nodup ∧
        ∀ a ∈ (observeAll obs st).markerPosts,
          a ∈ (observeAll obs st).hasReqMarked := by
  intro obs
  induction obs with
  | nil => intro st h1 h2; exact ⟨h1, h2⟩
  | cons o rest ih =>
    intro st h1 h2
    have hstep := observe_inv o st h1 h2
    exact ih (observe o st) hstep.1 hstep.2

/-- Claim C7: starting from a fresh session, any sequence of observed
outbound requests issues at most one correlation marker per action id; the
fetch wrapper never issues a marker at all (it only records the id); a
qualifying axios response whose action id is not yet in the dedup set adds
the id to the set and issues the one marker; and a response whose action id
is already in the dedup set changes nothing and sends no marker. -/
theorem claim_C7 {ι : Type} [DecidableEq ι] (obs : List (NetObs ι)) (a : ι)
    (st : CorrState ι) (iI iS sidP tokP : Bool) (aid : Option ι) :
    ((observeAll obs (corrInit ι)).markerPosts.count a ≤ 1) ∧
    ((observe (NetObs.fetchResp iI iS sidP aid) st).markerPosts =
      st.markerPosts) ∧
    (a ∈ st.hasReqMarked →
      observe (NetObs.axiosResp iI iS sidP (some a) tokP) st = st) ∧
    (a ∉ st.hasReqMarked → iI = false → iS = false → sidP = true →
      tokP = true →
      (observe (NetObs.axiosResp iI iS sidP (some a) tokP) st).hasReqMarked =
          a :: st.hasReqMarked ∧
        (observe (NetObs.axiosResp iI iS sidP (some a) tokP) st).markerPosts =
          st.markerPosts ++ [a]) := by
  refine ⟨?_, ?_, ?_, ?_⟩
  · have hinv := observeAll_inv obs (corrInit ι) (by simp [corrInit])
      (by simp [corrInit])
    exact List.nodup_iff_count_le_one.mp hinv.1 a
  · cases aid with
    | none => rfl
    | some x =>
      simp only [observe]
      split
      · rfl
      · rfl
  · intro ha
    simp [observe, ha]
  · intro ha hiI hiS hsid htok
    subst hiI; subst hiS; subst hsid; subst htok
    simp [observe, ha]

/-- Witness for claim C7: five identical qualifying axios responses under
action id 3 yield at most one marker for id 3, and the first of them adds
the marker. -/
theorem claim_C7_witness :
    ((observeAll
        (List.replicate 5 (NetObs.axiosResp false false true (some 3) true))
        (corrInit Nat)).markerPosts.count 3 ≤ 1) ∧
      (observe (NetObs.axiosResp false false true (some 3) true)
          (corrInit Nat)).markerPosts = (corrInit Nat).markerPosts ++ [3] :=
  ⟨(claim_C7 (List.replicate 5 (NetObs.axiosResp false false true (some 3) true))
      3 (corrInit Nat) false false true true (some 3)).1,
    ((claim_C7 ([] : List (NetObs Nat)) 3 (corrInit Nat) false false true true
      (some 3)).2.2.2 (by simp [corrInit]) rfl rfl rfl rfl).2⟩

/-- Claim C8: the click handler keeps at most one action current (the
state holds a single optional current action id); a click whose label
equals the stored last click's label and whose timestamp is less than
250 ms later is suppressed — the state, including the current action, is
unchanged — and any other click makes the freshly minted identifier
current, records the label and the click, and schedules the expiry 5000 ms
after the click. -/
theorem claim_C8 {ι κ : Type} [DecidableEq κ] (st : ClickSt ι κ) (t t0 : Nat)
    (label l0 : κ) (fresh : ι) :
    (st.lastClick = some (t0, l0) → t - t0 < 250 → l0 = label →
      clickHandler true false t label fresh st = st) ∧
    ((∀ p, st.lastClick = some p → ¬(t - p.1 < 250 ∧ p.2 = label)) →
      clickHandler true false t label fresh st =
        ⟨some fresh, some label, some (t, label), some (t + 5000)⟩) := by
  constructor
  · intro hl ht hlab
    have hdup : isDupClick t label st.lastClick = true := by
      rw [hl]
      simp [isDupClick, ht, hlab]
    simp [clickHandler, hdup]
  · intro h
    have hdup : isDupClick t label st.lastClick = false := by
      cases hl : st.lastClick with
      | none => rfl
      | some p =>
        have hp := h p hl
        push_neg at hp
        simp only [isDupClick, Bool.and_eq_true, decide_eq_true_eq,
          Bool.and_eq_false_iff, decide_eq_false_iff_not]
        by_cases hlt : t - p.1 < 250
        · exact Or.inr (hp hlt)
        · exact Or.inl hlt
    simp [clickHandler, hdup]

/-- Witness for claim C8: a second same-label click 100 ms after the first
is suppressed with the previous action still current, while a click on a
fresh state mints action 2, makes it current and schedules expiry at
t + 5000. -/
theorem claim_C8_witness :
    (clickHandler true false 1100 7 2
        (ClickSt.mk (some 1) (some 7) (some (1000, 7)) (some 6000) :
          ClickSt Nat Nat) =
      ClickSt.mk (some 1) (some 7) (some (1000, 7)) (some 6000)) ∧
    (clickHandler true false 50 7 2
        (ClickSt.mk none none none none : ClickSt Nat Nat) =
      ClickSt.mk (some 2) (some 7) (some (50, 7)) (some (50 + 5000))) :=
  ⟨(claim_C8 (ClickSt.mk (some 1) (some 7) (some (1000, 7)) (some 6000))
      1100 1000 7 7 2).1 rfl (by norm_num) rfl,
    (claim_C8 (ClickSt.mk none none none none) 50 0 7 7 2).2
      (by intro p hp; simp at hp)⟩

end Repro
